import Mathlib

/-!
# Verification of the PTY / inotify core

A shallow embedding of the repository's two subsystems:

* `src/sys/inotify.rs` — the inotify event view (`InotifyEvent`), its
  accessors (`filename`, `mask` via `from_bits_truncate`), the watch
  descriptor lifecycle, and the `Drop` impl of `InotifyFd`;
* `src/pty.rs` — the PTY allocation protocol (`posix_openpt`, `grantpt`,
  `unlockpt`, `ptsname`, `ptsname_r`, `openpty`) and the `PtyMaster`
  descriptor guard (`Drop`, `IntoRawFd`).

Buffers and names are byte lists (`List Nat`, each entry one byte);
kernel / libc behaviour that the library calls into is made explicit as
parameters or small modelled functions, so every embedded function is a
pure, executable Lean definition.
-/

/-! ## Inotify event masks (src/sys/inotify.rs, `bitflags InotifyEventMask`) -/

def IN_ACCESS : Nat := 0x001
def IN_MODIFY : Nat := 0x002
def IN_ATTRIB : Nat := 0x004
def IN_CLOSE_WRITE : Nat := 0x008
def IN_CLOSE_NOWRITE : Nat := 0x010
def IN_OPEN : Nat := 0x020
def IN_MOVED_FROM : Nat := 0x040
def IN_MOVED_TO : Nat := 0x080
def IN_CREATE : Nat := 0x100
def IN_DELETE : Nat := 0x200
def IN_DELETE_SELF : Nat := 0x400
def IN_MOVE_SELF : Nat := 0x800
def IN_UNMOUNT : Nat := 0x2000
def IN_Q_OVERFLOW : Nat := 0x4000
def IN_IGNORED : Nat := 0x8000

/-- The union of all fifteen defined `InotifyEventMask` flags: the `all()`
set that the `bitflags!` macro derives from the flag list. -/
def InotifyEventMask.allBits : Nat :=
  IN_ACCESS ||| IN_MODIFY ||| IN_ATTRIB ||| IN_CLOSE_WRITE ||| IN_CLOSE_NOWRITE |||
  IN_OPEN ||| IN_MOVED_FROM ||| IN_MOVED_TO ||| IN_CREATE ||| IN_DELETE |||
  IN_DELETE_SELF ||| IN_MOVE_SELF ||| IN_UNMOUNT ||| IN_Q_OVERFLOW ||| IN_IGNORED

/-- `InotifyEventMask::from_bits_truncate(bits)`: keep the defined flag bits,
silently drop every other bit (the `bitflags!`-generated truncating
constructor used by `InotifyEvent::mask`). -/
def InotifyEventMask.from_bits_truncate (bits : Nat) : Nat :=
  bits &&& InotifyEventMask.allBits

/-! ## Inotify events (src/sys/inotify.rs, `struct InotifyEvent`)

The Rust struct is a view into one record of the byte buffer returned by a
`read` on the inotify descriptor: fixed header `wd`, `mask`, `cookie`,
`len` (all 32-bit, little-endian in the buffer) followed by `len` bytes of
name.  The `name: *const char` pointer into the buffer is modelled as the
offset `nameOff` of the name region in that buffer. -/

structure InotifyEvent where
  wd : Nat
  mask : Nat
  cookie : Nat
  len : Nat
  nameOff : Nat
  deriving Repr, DecidableEq

/-- `InotifyEvent::mask(&self)`: `InotifyEventMask::from_bits_truncate(self.mask)`. -/
def InotifyEvent.maskView (e : InotifyEvent) : Nat :=
  InotifyEventMask.from_bits_truncate e.mask

/-- `InotifyEvent::cookie(&self)`. -/
def InotifyEvent.cookieView (e : InotifyEvent) : Nat := e.cookie

/-- `InotifyEvent::filename(&self)`:
`slice::from_raw_parts(self.name as *const u8, self.len as usize)` — the
`len` bytes of the backing buffer starting at the name pointer.  (Reading
past the backing buffer would be undefined behaviour in the Rust source;
the model truncates at the buffer end, and the decoder below never
produces an event for which that matters.) -/
def InotifyEvent.filename (buf : List Nat) (e : InotifyEvent) : List Nat :=
  (buf.drop e.nameOff).take e.len

/-- Strip trailing NUL bytes from a name region. -/
def stripTrailingNuls (l : List Nat) : List Nat :=
  ((l.reverse).dropWhile (fun b => b == 0)).reverse

/-- Modelled from the spec: the *usable name* of a decoded event — the
name region exposed by `filename` with its trailing NUL padding stripped
("strip trailing NUL padding when exposing a usable name").  The
repository contains only the `InotifyEvent` view and its raw `filename`
accessor; the exposure of a clean name is specified but its code is not
under `src/`. -/
def InotifyEvent.usableName (buf : List Nat) (e : InotifyEvent) : List Nat :=
  stripTrailingNuls (e.filename buf)

/-- Little-endian 32-bit read at offset `off` of a byte buffer (out-of-range
bytes default to 0; the decoder only reads in range). -/
def readU32 (buf : List Nat) (off : Nat) : Nat :=
  buf.getD off 0 + buf.getD (off + 1) 0 * 256 +
  buf.getD (off + 2) 0 * 65536 + buf.getD (off + 3) 0 * 16777216

/-- Modelled from the spec: one step per record of
`decode_events(buffer)` — the decoder of the kernel's packed
variable-length event records, which is specified (§4.3 "Event decoding")
but whose code is not under `src/` (only the `InotifyEvent` view it
produces is).  At offset `off`: read the 16-byte fixed header
(`wd`, `mask`, `cookie`, `len`); validate that the declared `len` bytes of
trailing name fit in the remaining buffer; produce the event viewing the
name region at `off + 16`; advance past the full padded record.  Stop when
the remaining bytes cannot hold a header or a declared trailer (never read
past the bytes actually returned by the read).  `fuel` bounds the
recursion; `decodeEvents` supplies enough for any buffer. -/
def decodeEventsAux : Nat → List Nat → Nat → List InotifyEvent
  | 0, _, _ => []
  | fuel + 1, buf, off =>
    if off + 16 ≤ buf.length then
      let wd := readU32 buf off
      let mask := readU32 buf (off + 4)
      let cookie := readU32 buf (off + 8)
      let len := readU32 buf (off + 12)
      if off + 16 + len ≤ buf.length then
        ⟨wd, mask, cookie, len, off + 16⟩ :: decodeEventsAux fuel buf (off + 16 + len)
      else []
    else []

/-- Modelled from the spec: `decode_events(buffer)` decodes the packed
records of one read buffer, in file order, starting at offset 0. -/
def decodeEvents (buf : List Nat) : List InotifyEvent :=
  decodeEventsAux (buf.length + 1) buf 0

/-- Little-endian 32-bit encoding of `n` (the kernel's header word format). -/
def encU32 (n : Nat) : List Nat :=
  [n % 256, n / 256 % 256, n / 65536 % 256, n / 16777216 % 256]

/-- One kernel event record as it appears in a read buffer: 16-byte header
(`wd`, `mask`, `cookie`, name length) followed by the name region. -/
def encodeEvent (wd mask cookie : Nat) (name : List Nat) : List Nat :=
  encU32 wd ++ encU32 mask ++ encU32 cookie ++ encU32 name.length ++ name

example : decodeEvents (encodeEvent 1 2 3 []) = [⟨1, 2, 3, 0, 16⟩] := by decide

example : decodeEvents (encodeEvent 1 2 3 [97, 98, 0, 0]) =
    [⟨1, 2, 3, 4, 16⟩] := by decide

example : (InotifyEvent.usableName (encodeEvent 1 2 3 [97, 98, 0, 0]) ⟨1, 2, 3, 4, 16⟩) =
    [97, 98] := by decide

/-! ## Decoder lemmas -/

theorem getD_drop (buf : List Nat) (off i : Nat) :
    (buf.drop off).getD i 0 = buf.getD (off + i) 0 := by
  rw [List.getD_eq_getElem?_getD, List.getD_eq_getElem?_getD, List.getElem?_drop]

theorem readU32_drop (buf : List Nat) (off : Nat) :
    readU32 (buf.drop off) 0 = readU32 buf off := by
  unfold readU32
  rw [getD_drop, getD_drop, getD_drop, getD_drop]
  norm_num

theorem encU32_length (n : Nat) : (encU32 n).length = 4 := rfl

theorem drop4_encU32 (n : Nat) (rest : List Nat) :
    (encU32 n ++ rest).drop 4 = rest :=
  List.drop_left (encU32 n) rest

theorem readU32_encU32 (n : Nat) (rest : List Nat) (h : n < 4294967296) :
    readU32 (encU32 n ++ rest) 0 = n := by
  have he : readU32 (encU32 n ++ rest) 0 =
      n % 256 + n / 256 % 256 * 256 + n / 65536 % 256 * 65536 +
        n / 16777216 % 256 * 16777216 := rfl
  rw [he]
  omega

theorem decodeEventsAux_empty (fuel : Nat) (buf : List Nat) (off : Nat)
    (h : buf.length < off + 16) : decodeEventsAux fuel buf off = [] := by
  cases fuel with
  | zero => rfl
  | succ n => simp only [decodeEventsAux]; rw [if_neg (by omega)]

theorem decodeEventsAux_bounds (fuel : Nat) (buf : List Nat) (off : Nat)
    (e : InotifyEvent) (h : e ∈ decodeEventsAux fuel buf off) :
    e.nameOff + e.len ≤ buf.length := by
  induction fuel generalizing off with
  | zero => simp [decodeEventsAux] at h
  | succ n ih =>
    simp only [decodeEventsAux] at h
    by_cases h1 : off + 16 ≤ buf.length
    · rw [if_pos h1] at h
      by_cases h2 : off + 16 + readU32 buf (off + 12) ≤ buf.length
      · rw [if_pos h2] at h
        rcases List.mem_cons.mp h with rfl | hm
        · simpa using h2
        · exact ih _ hm
      · rw [if_neg h2] at h
        simp at h
    · rw [if_neg h1] at h
      simp at h

theorem readU32_append (a b : List Nat) (i : Nat) :
    readU32 (a ++ b) (a.length + i) = readU32 b i := by
  rw [← readU32_drop (a ++ b) (a.length + i), ← readU32_drop b i]
  congr 1
  rw [← List.drop_drop, List.drop_left]

theorem stripTrailingNuls_spec (l : List Nat) :
    (∃ k, l = stripTrailingNuls l ++ List.replicate k 0) ∧
      (stripTrailingNuls l).getLast? ≠ some 0 := by
  constructor
  · refine ⟨(l.reverse.takeWhile (fun b => b == 0)).length, ?_⟩
    have h1 : l.reverse.takeWhile (fun b => b == 0) =
        List.replicate (l.reverse.takeWhile (fun b => b == 0)).length (0 : Nat) := by
      rw [List.eq_replicate_iff]
      exact ⟨rfl, fun b hb => by simpa using List.mem_takeWhile_imp hb⟩
    conv_lhs => rw [← l.reverse_reverse,
      ← List.takeWhile_append_dropWhile (fun b => b == 0) l.reverse]
    rw [List.reverse_append]
    simp only [stripTrailingNuls]
    congr 1
    rw [h1, List.reverse_replicate]
    simp
  · simp only [stripTrailingNuls]
    rw [List.getLast?_reverse]
    have hd := List.head?_dropWhile_not (fun b => b == 0) l.reverse
    intro hc
    rw [hc] at hd
    simp at hd

theorem decode_record (w m c : Nat) (n rest : List Nat)
    (hw : w < 4294967296) (hm : m < 4294967296) (hc : c < 4294967296)
    (hn : n.length < 4294967296) :
    readU32 (encodeEvent w m c n ++ rest) 0 = w ∧
    readU32 (encodeEvent w m c n ++ rest) 4 = m ∧
    readU32 (encodeEvent w m c n ++ rest) 8 = c ∧
    readU32 (encodeEvent w m c n ++ rest) 12 = n.length := by
  have hE : encodeEvent w m c n ++ rest =
      encU32 w ++ (encU32 m ++ (encU32 c ++ (encU32 n.length ++ (n ++ rest)))) := by
    simp [encodeEvent, List.append_assoc]
  refine ⟨?_, ?_, ?_, ?_⟩
  · rw [hE]; exact readU32_encU32 _ _ hw
  · rw [← readU32_drop _ 4, hE, drop4_encU32]
    exact readU32_encU32 _ _ hm
  · rw [← readU32_drop _ 8, hE, show (8 : Nat) = 4 + 4 from rfl, ← List.drop_drop,
      drop4_encU32, drop4_encU32]
    exact readU32_encU32 _ _ hc
  · rw [← readU32_drop _ 12, hE, show (12 : Nat) = 8 + 4 from rfl, ← List.drop_drop,
      show (8 : Nat) = 4 + 4 from rfl, ← List.drop_drop, drop4_encU32, drop4_encU32,
      drop4_encU32]
    exact readU32_encU32 _ _ hn

theorem encodeEvent_length (w m c : Nat) (n : List Nat) :
    (encodeEvent w m c n).length = 16 + n.length := by
  simp [encodeEvent, encU32]
  omega

theorem decodeEventsAux_single (f w m c : Nat) (n : List Nat)
    (hw : w < 4294967296) (hm : m < 4294967296) (hc : c < 4294967296)
    (hn : n.length < 4294967296) :
    decodeEventsAux (f + 1) (encodeEvent w m c n) 0 = [⟨w, m, c, n.length, 16⟩] := by
  have hr := decode_record w m c n [] hw hm hc hn
  rw [List.append_nil] at hr
  simp only [decodeEventsAux, Nat.zero_add]
  rw [hr.1, hr.2.1, hr.2.2.1, hr.2.2.2, encodeEvent_length]
  rw [if_pos (by omega), if_pos (by omega)]
  rw [decodeEventsAux_empty f _ _ (by rw [encodeEvent_length]; omega)]

theorem decodeEventsAux_append (fuel : Nat) (a b : List Nat) (off : Nat) :
    decodeEventsAux fuel (a ++ b) (a.length + off) =
      (decodeEventsAux fuel b off).map
        (fun e => ⟨e.wd, e.mask, e.cookie, e.len, e.nameOff + a.length⟩) := by
  induction fuel generalizing off with
  | zero => rfl
  | succ f ih =>
    simp only [decodeEventsAux]
    have r0 : readU32 (a ++ b) (a.length + off) = readU32 b off := readU32_append a b off
    have r4 : readU32 (a ++ b) (a.length + off + 4) = readU32 b (off + 4) := by
      rw [Nat.add_assoc]; exact readU32_append a b (off + 4)
    have r8 : readU32 (a ++ b) (a.length + off + 8) = readU32 b (off + 8) := by
      rw [Nat.add_assoc]; exact readU32_append a b (off + 8)
    have r12 : readU32 (a ++ b) (a.length + off + 12) = readU32 b (off + 12) := by
      rw [Nat.add_assoc]; exact readU32_append a b (off + 12)
    rw [r0, r4, r8, r12, List.length_append]
    by_cases h1 : off + 16 ≤ b.length
    · rw [if_pos h1, if_pos (show a.length + off + 16 ≤ a.length + b.length by omega)]
      by_cases h2 : off + 16 + readU32 b (off + 12) ≤ b.length
      · rw [if_pos h2,
          if_pos (show a.length + off + 16 + readU32 b (off + 12) ≤ a.length + b.length by
            omega),
          List.map_cons]
        congr 1
        · have hmk : a.length + off + 16 = off + 16 + a.length := by omega
          rw [hmk]
        · rw [show a.length + off + 16 + readU32 b (off + 12) =
              a.length + (off + 16 + readU32 b (off + 12)) from by omega]
          exact ih (off + 16 + readU32 b (off + 12))
      · rw [if_neg h2,
          if_neg (show ¬ a.length + off + 16 + readU32 b (off + 12) ≤ a.length + b.length by
            omega)]
        rfl
    · rw [if_neg h1, if_neg (show ¬ a.length + off + 16 ≤ a.length + b.length by omega)]
      rfl

theorem decodeEventsAux_cons (f : Nat) (buf : List Nat) (off : Nat)
    (h1 : off + 16 ≤ buf.length)
    (h2 : off + 16 + readU32 buf (off + 12) ≤ buf.length) :
    decodeEventsAux (f + 1) buf off =
      ⟨readU32 buf off, readU32 buf (off + 4), readU32 buf (off + 8),
        readU32 buf (off + 12), off + 16⟩ ::
        decodeEventsAux f buf (off + 16 + readU32 buf (off + 12)) := by
  simp only [decodeEventsAux]
  rw [if_pos h1, if_pos h2]

theorem decodeEvents_single (w m c : Nat) (n : List Nat)
    (hw : w < 4294967296) (hm : m < 4294967296) (hc : c < 4294967296)
    (hn : n.length < 4294967296) :
    decodeEvents (encodeEvent w m c n) = [⟨w, m, c, n.length, 16⟩] :=
  decodeEventsAux_single (encodeEvent w m c n).length w m c n hw hm hc hn

theorem decodeEvents_pair (w1 m1 c1 : Nat) (n1 : List Nat) (w2 m2 c2 : Nat) (n2 : List Nat)
    (hw1 : w1 < 4294967296) (hm1 : m1 < 4294967296) (hc1 : c1 < 4294967296)
    (hn1 : n1.length < 4294967296)
    (hw2 : w2 < 4294967296) (hm2 : m2 < 4294967296) (hc2 : c2 < 4294967296)
    (hn2 : n2.length < 4294967296) :
    decodeEvents (encodeEvent w1 m1 c1 n1 ++ encodeEvent w2 m2 c2 n2) =
      [⟨w1, m1, c1, n1.length, 16⟩, ⟨w2, m2, c2, n2.length, 32 + n1.length⟩] := by
  have hr := decode_record w1 m1 c1 n1 (encodeEvent w2 m2 c2 n2) hw1 hm1 hc1 hn1
  set buf := encodeEvent w1 m1 c1 n1 ++ encodeEvent w2 m2 c2 n2 with hbuf
  have hL : buf.length = 32 + n1.length + n2.length := by
    rw [hbuf, List.length_append, encodeEvent_length, encodeEvent_length]
    omega
  show decodeEventsAux (buf.length + 1) buf 0 = _
  rw [decodeEventsAux_cons buf.length buf 0 (by omega)
    (by simp only [Nat.zero_add]; rw [hr.2.2.2]; omega)]
  simp only [Nat.zero_add, hr.1, hr.2.1, hr.2.2.1, hr.2.2.2]
  congr 1
  rw [show buf.length = 32 + n1.length + n2.length from hL]
  rw [show (16 : Nat) + n1.length = (encodeEvent w1 m1 c1 n1).length + 0 from by
    simp [encodeEvent_length]]
  rw [hbuf, decodeEventsAux_append]
  rw [show (32 : Nat) + n1.length + n2.length = (31 + n1.length + n2.length) + 1 from by
    omega]
  rw [decodeEventsAux_single _ w2 m2 c2 n2 hw2 hm2 hc2 hn2]
  simp only [List.map_cons, List.map_nil]
  rw [show (16 : Nat) + (encodeEvent w1 m1 c1 n1).length = 32 + n1.length from by
    rw [encodeEvent_length]; omega]

/-! ## Claim theorems for the inotify decoder -/

/-- C1: every decoded event with nonzero declared name length exposes, as its
usable name, the name region with trailing NUL padding stripped (the stripped
part is exactly a run of NULs and the usable name never ends in a NUL); a
zero-name-length record decodes to an event whose name is empty; a buffer of
one zero-name-length record decodes to exactly one event with an empty name,
and a buffer of two concatenated records decodes to exactly two events in
file order. -/
theorem inotify_decode_names_spec :
    (∀ (buf : List Nat) (e : InotifyEvent), e ∈ decodeEvents buf → e.len ≠ 0 →
      ∃ k, e.filename buf = e.usableName buf ++ List.replicate k 0 ∧
        (e.usableName buf).getLast? ≠ some 0) ∧
    (∀ (buf : List Nat) (e : InotifyEvent), e ∈ decodeEvents buf → e.len = 0 →
      e.filename buf = [] ∧ e.usableName buf = []) ∧
    (∀ w m c : Nat, w < 4294967296 → m < 4294967296 → c < 4294967296 →
      decodeEvents (encodeEvent w m c []) = [⟨w, m, c, 0, 16⟩] ∧
        InotifyEvent.usableName (encodeEvent w m c []) ⟨w, m, c, 0, 16⟩ = []) ∧
    (∀ (w1 m1 c1 w2 m2 c2 : Nat) (n1 n2 : List Nat),
      w1 < 4294967296 → m1 < 4294967296 → c1 < 4294967296 → n1.length < 4294967296 →
      w2 < 4294967296 → m2 < 4294967296 → c2 < 4294967296 → n2.length < 4294967296 →
      decodeEvents (encodeEvent w1 m1 c1 n1 ++ encodeEvent w2 m2 c2 n2) =
        [⟨w1, m1, c1, n1.length, 16⟩, ⟨w2, m2, c2, n2.length, 32 + n1.length⟩]) := by
  refine ⟨?_, ?_, ?_, ?_⟩
  · intro buf e _ _
    obtain ⟨⟨k, hk⟩, hlast⟩ := stripTrailingNuls_spec (e.filename buf)
    exact ⟨k, hk, hlast⟩
  · intro buf e _ hlen
    constructor
    · simp [InotifyEvent.filename, hlen]
    · simp [InotifyEvent.usableName, InotifyEvent.filename, hlen, stripTrailingNuls]
  · intro w m c hw hm hc
    refine ⟨decodeEvents_single w m c [] hw hm hc (by decide), rfl⟩
  · intro w1 m1 c1 w2 m2 c2 n1 n2 hw1 hm1 hc1 hn1 hw2 hm2 hc2 hn2
    exact decodeEvents_pair w1 m1 c1 n1 w2 m2 c2 n2 hw1 hm1 hc1 hn1 hw2 hm2 hc2 hn2

/-- Witness for C1 at concrete inputs: a record with name bytes
`[104, 105, 0, 0]` strips to a usable name that the padded region extends by
NULs, and the two-record buffer decodes to two events in file order. -/
theorem inotify_decode_names_spec_witness :
    (∃ k, InotifyEvent.filename (encodeEvent 5 6 7 [104, 105, 0, 0]) ⟨5, 6, 7, 4, 16⟩ =
        InotifyEvent.usableName (encodeEvent 5 6 7 [104, 105, 0, 0]) ⟨5, 6, 7, 4, 16⟩ ++
          List.replicate k 0) ∧
    decodeEvents (encodeEvent 5 6 7 [] ++ encodeEvent 8 9 10 [97]) =
      [⟨5, 6, 7, 0, 16⟩, ⟨8, 9, 10, 1, 32⟩] := by
  constructor
  · obtain ⟨k, hk, _⟩ := inotify_decode_names_spec.1 (encodeEvent 5 6 7 [104, 105, 0, 0])
      ⟨5, 6, 7, 4, 16⟩ (by decide) (by decide)
    exact ⟨k, hk⟩
  · exact inotify_decode_names_spec.2.2.2 5 6 7 8 9 10 [] [97] (by decide) (by decide)
      (by decide) (by decide) (by decide) (by decide) (by decide) (by decide)

/-- C2: the filename span of every decoded event lies within the decoded
buffer: the declared length was validated against the remaining buffer
size, so the span never extends past the bytes actually read. -/
theorem inotify_filename_span_in_bounds (buf : List Nat) (e : InotifyEvent)
    (h : e ∈ decodeEvents buf) :
    e.nameOff + e.len ≤ buf.length ∧ (e.filename buf).length = e.len := by
  have hb := decodeEventsAux_bounds (buf.length + 1) buf 0 e h
  refine ⟨hb, ?_⟩
  have hlen : (e.filename buf).length = min e.len (buf.length - e.nameOff) := by
    simp [InotifyEvent.filename]
  rw [hlen]
  omega

/-- Witness for C2 at a concrete two-byte-name record. -/
theorem inotify_filename_span_in_bounds_witness :
    (⟨1, 2, 3, 2, 16⟩ : InotifyEvent).nameOff + (⟨1, 2, 3, 2, 16⟩ : InotifyEvent).len ≤
        (encodeEvent 1 2 3 [97, 0]).length ∧
      (InotifyEvent.filename (encodeEvent 1 2 3 [97, 0]) ⟨1, 2, 3, 2, 16⟩).length = 2 :=
  inotify_filename_span_in_bounds (encodeEvent 1 2 3 [97, 0]) ⟨1, 2, 3, 2, 16⟩ (by decide)

/-- C9: the event-mask accessor truncates the kernel-reported mask to the
fifteen defined flag bits (`0xEFFF`): a bit outside the defined set — e.g.
the directory-indicator bit `0x40000000` (bit 30) — is silently discarded,
never visible to the consumer. -/
theorem inotify_mask_truncates (e : InotifyEvent) :
    e.maskView = e.mask &&& 0xEFFF ∧
    e.maskView.testBit 30 = false ∧
    ∀ i : Nat, e.maskView.testBit i = (e.mask.testBit i && InotifyEventMask.allBits.testBit i) := by
  have hall : InotifyEventMask.allBits = 0xEFFF := by decide
  have h30 : Nat.testBit InotifyEventMask.allBits 30 = false := by decide
  refine ⟨?_, ?_, ?_⟩
  · rw [InotifyEvent.maskView, InotifyEventMask.from_bits_truncate, hall]
  · rw [InotifyEvent.maskView, InotifyEventMask.from_bits_truncate, Nat.testBit_and, h30,
      Bool.and_false]
  · intro i
    rw [InotifyEvent.maskView, InotifyEventMask.from_bits_truncate, Nat.testBit_and]

/-! ## UTF-8 validity and lossy decoding

`ptsname_r` converts the kernel name with `String::from_utf8` (fails on
invalid UTF-8); `ptsname` uses `to_string_lossy` (total).  Both are modelled
over byte lists with the standard UTF-8 well-formedness table. -/

/-- A UTF-8 continuation byte: `0x80..=0xBF`. -/
def utf8ContByte (b : Nat) : Bool := 0x80 ≤ b && b ≤ 0xBF

/-- Classify a UTF-8 lead byte: `none` for an invalid lead, otherwise the
number of continuation bytes and the allowed range of the first one
(the remaining continuations always range over `0x80..=0xBF`). -/
def utf8Class (b : Nat) : Option (Nat × Nat × Nat) :=
  if b ≤ 0x7F then some (0, 0, 0)
  else if 0xC2 ≤ b && b ≤ 0xDF then some (1, 0x80, 0xBF)
  else if b == 0xE0 then some (2, 0xA0, 0xBF)
  else if (0xE1 ≤ b && b ≤ 0xEC) || b == 0xEE || b == 0xEF then some (2, 0x80, 0xBF)
  else if b == 0xED then some (2, 0x80, 0x9F)
  else if b == 0xF0 then some (3, 0x90, 0xBF)
  else if 0xF1 ≤ b && b ≤ 0xF3 then some (3, 0x80, 0xBF)
  else if b == 0xF4 then some (3, 0x80, 0x8F)
  else none

/-- The UTF-8 acceptor run one byte at a time (structural in the list, so
it evaluates by reduction): the state is `none` when a lead byte is
expected, `some (cnt, lo, hi)` when `cnt` continuation bytes are still
needed and the next must lie in `lo..=hi` (later ones in `0x80..=0xBF`). -/
def validUtf8Aux : Option (Nat × Nat × Nat) → List Nat → Bool
  | none, [] => true
  | some _, [] => false
  | none, b :: rest =>
    match utf8Class b with
    | none => false
    | some (0, _, _) => validUtf8Aux none rest
    | some (cnt, lo, hi) => validUtf8Aux (some (cnt, lo, hi)) rest
  | some (cnt, lo, hi), b :: rest =>
    if lo ≤ b && b ≤ hi then
      match cnt with
      | 0 => false
      | 1 => validUtf8Aux none rest
      | cnt2 + 2 => validUtf8Aux (some (cnt2 + 1, 0x80, 0xBF)) rest
    else false

/-- UTF-8 validity of a byte list — the acceptance condition of
`String::from_utf8`. -/
def validUtf8 (l : List Nat) : Bool := validUtf8Aux none l

/-- The number of low bits of a lead byte that contribute to the scalar
value, given its continuation count. -/
def utf8LeadMask (cnt : Nat) : Nat :=
  match cnt with
  | 1 => 0x1F
  | 2 => 0x0F
  | _ => 0x07

/-- `String::from_utf8_lossy` as a total codepoint-list decoder, run as a
state machine (`some (cnt, lo, hi, acc)` = `cnt` continuation bytes still
needed, next in `lo..=hi`, `acc` the scalar bits so far): well-formed
sequences decode to their scalar value, any offending or truncating byte
contributes the replacement character `0xFFFD` and the scan continues.
(The exact replacement granularity of the Rust routine is irrelevant here:
only its totality — it never fails — is relied on.) -/
def utf8LossyAux : Option (Nat × Nat × Nat × Nat) → List Nat → List Nat
  | none, [] => []
  | some _, [] => [0xFFFD]
  | none, b :: rest =>
    match utf8Class b with
    | none => 0xFFFD :: utf8LossyAux none rest
    | some (0, _, _) => b :: utf8LossyAux none rest
    | some (cnt, lo, hi) => utf8LossyAux (some (cnt, lo, hi, b &&& utf8LeadMask cnt)) rest
  | some (cnt, lo, hi, acc), b :: rest =>
    if lo ≤ b && b ≤ hi then
      match cnt with
      | 0 => 0xFFFD :: utf8LossyAux none rest
      | 1 => ((acc <<< 6) ||| (b &&& 0x3F)) :: utf8LossyAux none rest
      | cnt2 + 2 => utf8LossyAux (some (cnt2 + 1, 0x80, 0xBF, (acc <<< 6) ||| (b &&& 0x3F))) rest
    else 0xFFFD :: utf8LossyAux none rest

/-- Total lossy conversion of kernel bytes to codepoints
(`CStr::to_string_lossy`). -/
def utf8DecodeLossy (l : List Nat) : List Nat := utf8LossyAux none l

/-! ## PTY allocator and descriptor guards (src/pty.rs, src/sys/inotify.rs)

The libc calls are explicit inputs: each embedded function takes the
return value (and, where relevant, the output data) of the one syscall it
wraps, plus the thread's `errno`, and computes what the Rust function
returns from them. -/

/-- The crate's error type as used by this core: a kernel-reported failure
carrying the raw `errno`, or the UTF-8 decoding failure that
`String::from_utf8(..)?` converts into the crate error. -/
inductive NixError
  | Sys (errno : Nat)
  | InvalidUtf8
  deriving Repr, DecidableEq

/-- `struct PtyMaster(RawFd)` — the master-side descriptor guard. -/
structure PtyMaster where
  fd : Int
  deriving Repr, DecidableEq

/-- `impl AsRawFd for PtyMaster`: `self.0`. -/
def PtyMaster.as_raw_fd (m : PtyMaster) : Int := m.fd

/-- `impl IntoRawFd for PtyMaster`:
`let fd = self.0; mem::forget(self); fd` — the first component is the
returned raw descriptor, the second records that `mem::forget` ran (the
guard's destructor is suppressed). -/
def PtyMaster.into_raw_fd (m : PtyMaster) : Int × Bool := (m.fd, true)

/-- `struct InotifyFd(RawFd)` — the inotify instance guard. -/
structure InotifyFd where
  fd : Int
  deriving Repr, DecidableEq

/-- `impl AsRawFd for InotifyFd`: `self.0`. -/
def InotifyFd.as_raw_fd (i : InotifyFd) : Int := i.fd

/-- `unistd::close(fd)` — `Errno::result(libc::close(fd))` — against the
kernel's table of open descriptors: closing an open descriptor removes it
and succeeds; closing anything else fails with `EBADF` (9) and changes
nothing. -/
def closeFd (s : List Int) (fd : Int) : List Int × Except NixError Unit :=
  if fd ∈ s then (s.erase fd, .ok ()) else (s, .error (.Sys 9))

/-- `impl Drop for PtyMaster`: `let _ = ::unistd::close(self.0);` — one
close call on the wrapped descriptor, its result discarded.  Returns the
kernel table after the attempt and the list of close calls the destructor
body performed. -/
def PtyMaster.dropGuard (s : List Int) (m : PtyMaster) : List Int × List Int :=
  ((closeFd s m.fd).1, [m.fd])

/-- `impl Drop for InotifyFd`: `let _ = unistd::close(self.0);`. -/
def InotifyFd.dropGuard (s : List Int) (i : InotifyFd) : List Int × List Int :=
  ((closeFd s i.fd).1, [i.fd])

/-- Modelled from the spec: Rust scope exit for a guard value ("destroyed
when the guard goes out of scope (triggering release) or when ownership is
explicitly transferred out (in which case no release occurs)").  The
language runtime, not repository code, guarantees the destructor runs
exactly once unless `mem::forget` suppressed it; `transferred` is that
suppression flag.  Returns the kernel table and the close calls made. -/
def ptyMasterScopeExit (s : List Int) (m : PtyMaster) (transferred : Bool) :
    List Int × List Int :=
  if transferred then (s, []) else m.dropGuard s

/-- Modelled from the spec: scope exit for `InotifyFd`, as for `PtyMaster`. -/
def inotifyFdScopeExit (s : List Int) (i : InotifyFd) (transferred : Bool) :
    List Int × List Int :=
  if transferred then (s, []) else i.dropGuard s

/-- `posix_openpt(flags)`: `res` is the return value of
`libc::posix_openpt(flags.bits())` and `errno` the thread error code —
`if fd < 0 { Err(Error::last()) } else { Ok(PtyMaster(fd)) }`.  The flags
only influence the kernel's choice of `res` and are not otherwise
inspected. -/
def posix_openpt (res : Int) (errno : Nat) : Except NixError PtyMaster :=
  if res < 0 then .error (.Sys errno) else .ok ⟨res⟩

/-- `grantpt(fd)`: `res` is the return value of
`libc::grantpt(fd.as_raw_fd())` — `if res < 0 { Err(Error::last()) } else { Ok(()) }`. -/
def grantpt (res : Int) (errno : Nat) (fd : PtyMaster) : Except NixError Unit :=
  if res < 0 then .error (.Sys errno) else .ok ()

/-- `unlockpt(fd)`: `res` is the return value of
`libc::unlockpt(fd.as_raw_fd())` — same shape as `grantpt`. -/
def unlockpt (res : Int) (errno : Nat) (fd : PtyMaster) : Except NixError Unit :=
  if res < 0 then .error (.Sys errno) else .ok ()

/-- The `PtyMaster` values a caller of the library can obtain: the struct
field is private to `src/pty.rs`, and the only expression constructing the
type in the crate's public API is `Ok(PtyMaster(fd))` inside
`posix_openpt`, so every obtainable guard comes from a successful
`posix_openpt`. -/
inductive ObtainablePtyMaster : PtyMaster → Prop
  | openpt (res : Int) (errno : Nat) (m : PtyMaster) :
      posix_openpt res errno = .ok m → ObtainablePtyMaster m

/-- `libc::winsize` — opaque value type (four 16-bit fields). -/
structure Winsize where
  ws_row : Nat
  ws_col : Nat
  ws_xpixel : Nat
  ws_ypixel : Nat
  deriving Repr, DecidableEq

/-- Terminal settings (`termios`) — opaque value type passed through
unmodified. -/
structure Termios where
  raw : Nat
  deriving Repr, DecidableEq

/-- A `*const T` argument to a libc call: null or a pointer to a value. -/
inductive CPtr (α : Type)
  | null
  | mk (a : α)
  deriving Repr, DecidableEq

/-- `struct OpenptyResult { master: RawFd, slave: RawFd }`. -/
structure OpenptyResult where
  master : Int
  slave : Int
  deriving Repr, DecidableEq

/-- The kernel's response to one `libc::openpty` call: return code, the two
descriptors it allocates, the slave's default settings, and the thread's
`errno`. -/
structure PtyKernel where
  ret : Int
  masterFd : Int
  slaveFd : Int
  defaultTermios : Termios
  defaultWinsize : Winsize
  errno : Nat
  deriving Repr, DecidableEq

/-- Modelled from the libc contract of `openpty(&master, &slave, NULL,
termp, winp)`: the kernel allocates the pair and applies the slave settings
from each non-null pointer, leaving its own default where the pointer is
null.  The slave's resulting settings are part of the reply so the effect
of a null argument is observable. -/
def libcOpenpty (k : PtyKernel) (termp : CPtr Termios) (winp : CPtr Winsize) :
    Int × Int × Int × Termios × Winsize :=
  (k.ret, k.masterFd, k.slaveFd,
    (match termp with | .null => k.defaultTermios | .mk t => t),
    (match winp with | .null => k.defaultWinsize | .mk w => w))

/-- The termios argument marshalling in `openpty` (src/pty.rs):
`match termios.into() { Some(t) => t as *const _, None => ptr::null() }`. -/
def openptyTermiosArg (termios : Option Termios) : CPtr Termios :=
  match termios with
  | some t => .mk t
  | none => .null

/-- The winsize argument marshalling in `openpty` (src/pty.rs). -/
def openptyWinsizeArg (winsize : Option Winsize) : CPtr Winsize :=
  match winsize with
  | some w => .mk w
  | none => .null

/-- `openpty(winsize, termios)` (src/pty.rs): marshal each optional
argument to a pointer (null when absent), call `libc::openpty`, run the
result through `Errno::result(ret)?` — which fails exactly when `ret` is
the sentinel `-1` — and package master and slave.  The slave's resulting
settings ride along so theorems can observe the kernel effect. -/
def openpty (k : PtyKernel) (winsize : Option Winsize) (termios : Option Termios) :
    Except NixError OpenptyResult × Termios × Winsize :=
  match libcOpenpty k (openptyTermiosArg termios) (openptyWinsizeArg winsize) with
  | (ret, master, slave, t, w) =>
    if ret = -1 then (.error (.Sys k.errno), t, w)
    else (.ok ⟨master, slave⟩, t, w)

/-- `ptsname(fd)` (src/pty.rs), the non-reentrant form: `libcName` is the C
string `libc::ptsname` returns (`none` = NULL pointer).  NULL yields the
last errno as a `SystemError`; otherwise the bytes pass through
`CStr::to_string_lossy().into_owned()` — a total conversion that cannot
fail. -/
def ptsname (libcName : Option (List Nat)) (errno : Nat) (fd : PtyMaster) :
    Except NixError (List Nat) :=
  match libcName with
  | none => .error (.Sys errno)
  | some bytes => .ok (utf8DecodeLossy bytes)

/-- Modelled from the libc contract of `ptsname_r(fd, buf, 64)` on the
64-byte buffer the caller passes: `kernelName` is the slave device name
(`none` = no mapping / invalid fd, nonzero return).  When the name plus
its NUL terminator fits, the call writes it and returns 0, the rest of the
zero-initialised `vec![0u8; 64]` keeping its zeros; otherwise it fails
(`ERANGE`, nonzero return). -/
def libcPtsnameR (kernelName : Option (List Nat)) : Option (List Nat) :=
  match kernelName with
  | none => none
  | some name =>
    if name.length + 1 ≤ 64 then some (name ++ List.replicate (64 - name.length) 0)
    else none

/-- `ptsname_r(fd)` (src/pty.rs): allocate `vec![0u8; 64]`, call the
reentrant libc routine; nonzero return yields the last errno as a
`SystemError`.  On zero return, find the first NUL in the buffer — the
source `unwrap`s here, so a NUL-free buffer would panic, modelled as the
outer `none` — truncate to it, and convert with `String::from_utf8(..)?`,
whose failure becomes the distinct `InvalidUtf8` decoding error. -/
def ptsname_r (kernelName : Option (List Nat)) (errno : Nat) (fd : PtyMaster) :
    Option (Except NixError (List Nat)) :=
  match libcPtsnameR kernelName with
  | none => some (.error (.Sys errno))
  | some buf =>
    match buf.findIdx? (fun b => b == 0) with
    | none => none
    | some i =>
      let trunc := buf.take i
      if validUtf8 trunc then some (.ok trunc) else some (.error .InvalidUtf8)

/-! ## Lemmas about the reentrant name buffer -/

theorem findIdx?_append_nul (name rest : List Nat) (h : ∀ x ∈ name, x ≠ 0) :
    (name ++ 0 :: rest).findIdx? (fun b => b == 0) = some name.length := by
  induction name with
  | nil => simp
  | cons a l ih =>
    have ha : a ≠ 0 := h a (List.mem_cons_self a l)
    simp only [List.cons_append, List.findIdx?_cons]
    rw [if_neg (by simpa using ha), List.findIdx?_start_succ,
      ih (fun x hx => h x (List.mem_cons_of_mem a hx))]
    simp

theorem take_findIdx?_not (p : Nat → Bool) :
    ∀ (l : List Nat) (i : Nat), l.findIdx? p = some i → ∀ x ∈ l.take i, p x = false := by
  intro l
  induction l with
  | nil => intro i h; simp at h
  | cons a l ih =>
    intro i h x hx
    rw [List.findIdx?_cons] at h
    by_cases hp : p a
    · rw [if_pos hp] at h
      injection h with h0
      subst h0
      simp at hx
    · rw [if_neg hp, List.findIdx?_start_succ] at h
      obtain ⟨j, hj, hji⟩ := Option.map_eq_some'.mp h
      subst hji
      simp only [Nat.zero_add, List.take_succ_cons, List.mem_cons] at hx
      rcases hx with rfl | hx'
      · simpa using hp
      · exact ih j hj x hx'

theorem ptsname_r_eq_some_name (name : List Nat) (errno : Nat) (fd : PtyMaster)
    (hlen : name.length + 1 ≤ 64) :
    ptsname_r (some name) errno fd =
      (match (name ++ List.replicate (64 - name.length) 0).findIdx? (fun b => b == 0) with
       | none => none
       | some i =>
         if validUtf8 ((name ++ List.replicate (64 - name.length) 0).take i) then
           some (.ok ((name ++ List.replicate (64 - name.length) 0).take i))
         else some (.error .InvalidUtf8)) := by
  simp only [ptsname_r, libcPtsnameR]
  rw [if_pos hlen]

theorem ptsname_r_found (name : List Nat) (errno : Nat) (fd : PtyMaster) (i : Nat)
    (hlen : name.length + 1 ≤ 64)
    (hf : (name ++ List.replicate (64 - name.length) 0).findIdx? (fun b => b == 0) =
      some i) :
    ptsname_r (some name) errno fd =
      if validUtf8 ((name ++ List.replicate (64 - name.length) 0).take i) then
        some (.ok ((name ++ List.replicate (64 - name.length) 0).take i))
      else some (.error .InvalidUtf8) := by
  rw [ptsname_r_eq_some_name name errno fd hlen, hf]

theorem ptsname_r_success_eq (name : List Nat) (errno : Nat) (fd : PtyMaster)
    (hlen : name.length + 1 ≤ 64) (hnul : ∀ x ∈ name, x ≠ 0) :
    ptsname_r (some name) errno fd =
      some (if validUtf8 name = true then Except.ok name
        else Except.error NixError.InvalidUtf8) := by
  have hrep : (64 : Nat) - name.length = (63 - name.length) + 1 := by omega
  rw [ptsname_r_eq_some_name name errno fd hlen, hrep, List.replicate_succ,
    findIdx?_append_nul name _ hnul]
  by_cases hv : validUtf8 name <;> simp [hv, List.take_left]

/-! ## Claim theorems for the PTY allocator and guards -/

/-- C3: the only non-`SystemError` decoding error comes from the reentrant
name resolution: `ptsname` succeeds on every non-NULL kernel string
(lossy conversion, never `InvalidUtf8`) and fails only with the errno
`SystemError` on NULL, while `ptsname_r`, when the kernel supplies a
fitting NUL-free name, returns the `InvalidUtf8` decoding error exactly
when that name is not valid UTF-8. -/
theorem ptsname_decoding_errors :
    (∀ (bytes : List Nat) (errno : Nat) (fd : PtyMaster),
      ptsname (some bytes) errno fd = .ok (utf8DecodeLossy bytes)) ∧
    (∀ (errno : Nat) (fd : PtyMaster), ptsname none errno fd = .error (.Sys errno)) ∧
    (∀ (libcName : Option (List Nat)) (errno : Nat) (fd : PtyMaster),
      ptsname libcName errno fd ≠ .error .InvalidUtf8) ∧
    (∀ (name : List Nat) (errno : Nat) (fd : PtyMaster),
      name.length + 1 ≤ 64 → (∀ x ∈ name, x ≠ 0) →
      (ptsname_r (some name) errno fd = some (.error .InvalidUtf8) ↔
        validUtf8 name = false)) := by
  refine ⟨fun bytes errno fd => rfl, fun errno fd => rfl, ?_, ?_⟩
  · intro libcName errno fd
    cases libcName <;> simp [ptsname]
  · intro name errno fd hlen hnul
    rw [ptsname_r_success_eq name errno fd hlen hnul]
    by_cases hv : validUtf8 name <;> simp [hv]

/-- Witness for C3: the byte `0xFF` is not valid UTF-8; `ptsname` still
succeeds on it, `ptsname_r` reports the decoding error. -/
theorem ptsname_decoding_errors_witness :
    ptsname (some [255]) 7 ⟨3⟩ = .ok (utf8DecodeLossy [255]) ∧
    ptsname_r (some [255]) 7 ⟨3⟩ = some (.error .InvalidUtf8) :=
  ⟨ptsname_decoding_errors.1 [255] 7 ⟨3⟩,
    (ptsname_decoding_errors.2.2.2 [255] 7 ⟨3⟩ (by decide) (by decide)).mpr (by decide)⟩

/-- C4: dropping a `PtyMaster` or `InotifyFd` guard (not transferred out)
performs exactly one close of the wrapped descriptor — the kernel table
afterwards is the table with that descriptor erased — and a close failure
is swallowed: the destructor still completes, returning normally with the
same single close attempt recorded. -/
theorem guard_drop_closes_once (s : List Int) (m : PtyMaster) (i : InotifyFd) :
    (ptyMasterScopeExit s m false = (s.erase m.fd, [m.fd])) ∧
    (inotifyFdScopeExit s i false = (s.erase i.fd, [i.fd])) ∧
    (∀ e, (closeFd s m.fd).2 = .error e → ptyMasterScopeExit s m false = (s, [m.fd])) := by
  refine ⟨?_, ?_, ?_⟩
  · by_cases hm : m.fd ∈ s
    · simp [ptyMasterScopeExit, PtyMaster.dropGuard, closeFd, hm]
    · simp [ptyMasterScopeExit, PtyMaster.dropGuard, closeFd, hm,
        List.erase_of_not_mem hm]
  · by_cases hi : i.fd ∈ s
    · simp [inotifyFdScopeExit, InotifyFd.dropGuard, closeFd, hi]
    · simp [inotifyFdScopeExit, InotifyFd.dropGuard, closeFd, hi,
        List.erase_of_not_mem hi]
  · intro e he
    by_cases hm : m.fd ∈ s
    · simp [closeFd, hm] at he
    · simp [ptyMasterScopeExit, PtyMaster.dropGuard, closeFd, hm]

/-- Witness for C4: dropping the guard of open descriptor 5 closes it;
dropping a guard whose descriptor is already closed (close fails `EBADF`)
still completes with the one attempted close. -/
theorem guard_drop_closes_once_witness :
    ptyMasterScopeExit [5] ⟨5⟩ false = ([], [5]) ∧
    inotifyFdScopeExit [5] ⟨7⟩ false = ([5], [7]) ∧
    ptyMasterScopeExit [] ⟨3⟩ false = ([], [3]) :=
  ⟨(guard_drop_closes_once [5] ⟨5⟩ ⟨7⟩).1,
    (guard_drop_closes_once [5] ⟨5⟩ ⟨7⟩).2.1,
    (guard_drop_closes_once [] ⟨3⟩ ⟨7⟩).2.2 (.Sys 9) rfl⟩

/-- C5: `into_raw_fd` returns exactly the wrapped raw descriptor and sets
the `mem::forget` flag, so the suppressed scope exit performs no close at
all and leaves the kernel table untouched. -/
theorem into_raw_fd_transfers (m : PtyMaster) (s : List Int) :
    (m.into_raw_fd).1 = m.fd ∧
    ptyMasterScopeExit s m (m.into_raw_fd).2 = (s, []) :=
  ⟨rfl, rfl⟩

/-- C6: `openpty` marshals each absent optional argument to a null pointer,
so the slave keeps the kernel default for that setting; on success (the
libc return is not the `-1` sentinel) it returns both descriptors the
kernel produced. -/
theorem openpty_null_defaults (k : PtyKernel) (w : Option Winsize) (t : Option Termios) :
    openptyTermiosArg none = CPtr.null ∧
    openptyWinsizeArg none = CPtr.null ∧
    (openpty k none none).2 = (k.defaultTermios, k.defaultWinsize) ∧
    (openpty k none t).2.2 = k.defaultWinsize ∧
    (openpty k w none).2.1 = k.defaultTermios ∧
    (k.ret ≠ -1 → (openpty k w t).1 = .ok ⟨k.masterFd, k.slaveFd⟩) := by
  refine ⟨rfl, rfl, ?_, ?_, ?_, ?_⟩
  · by_cases hk : k.ret = -1 <;> simp [openpty, libcOpenpty, openptyTermiosArg,
      openptyWinsizeArg, hk]
  · by_cases hk : k.ret = -1 <;> simp [openpty, libcOpenpty, openptyWinsizeArg, hk]
  · by_cases hk : k.ret = -1 <;> simp [openpty, libcOpenpty, openptyTermiosArg, hk]
  · intro hk
    simp [openpty, libcOpenpty, hk]

/-- Witness for C6 at a concrete kernel reply (`ret 0`, master 5, slave 6):
absent settings keep the defaults, the result carries both descriptors. -/
theorem openpty_null_defaults_witness :
    (openpty ⟨0, 5, 6, ⟨1⟩, ⟨2, 3, 4, 5⟩, 7⟩ none none).1 = .ok ⟨5, 6⟩ ∧
    (openpty ⟨0, 5, 6, ⟨1⟩, ⟨2, 3, 4, 5⟩, 7⟩ none none).2 = (⟨1⟩, ⟨2, 3, 4, 5⟩) :=
  ⟨(openpty_null_defaults ⟨0, 5, 6, ⟨1⟩, ⟨2, 3, 4, 5⟩, 7⟩ none none).2.2.2.2.2 (by decide),
    (openpty_null_defaults ⟨0, 5, 6, ⟨1⟩, ⟨2, 3, 4, 5⟩, 7⟩ none none).2.2.1⟩

/-- C7: each primitive PTY operation maps the syscall result directly:
`posix_openpt` wraps a non-negative return in a `PtyMaster` and turns a
negative return into the errno `SystemError`; `grantpt` and `unlockpt`
return unit exactly on a non-negative result and the errno `SystemError`
otherwise — nothing retried, nothing transformed. -/
theorem pty_syscall_result_mapping (res : Int) (errno : Nat) (m : PtyMaster) :
    (0 ≤ res → posix_openpt res errno = .ok ⟨res⟩) ∧
    (res < 0 → posix_openpt res errno = .error (.Sys errno)) ∧
    (grantpt res errno m = .ok () ↔ 0 ≤ res) ∧
    (res < 0 → grantpt res errno m = .error (.Sys errno)) ∧
    (unlockpt res errno m = .ok () ↔ 0 ≤ res) ∧
    (res < 0 → unlockpt res errno m = .error (.Sys errno)) := by
  by_cases h : res < 0 <;>
    simp [posix_openpt, grantpt, unlockpt, h] <;> omega

/-- Witness for C7: result 5 opens master fd 5; result `-1` yields the
errno error for each operation. -/
theorem pty_syscall_result_mapping_witness :
    posix_openpt 5 0 = .ok ⟨5⟩ ∧ posix_openpt (-1) 9 = .error (.Sys 9) ∧
    grantpt (-1) 13 ⟨5⟩ = .error (.Sys 13) ∧ unlockpt (-1) 1 ⟨5⟩ = .error (.Sys 1) :=
  ⟨(pty_syscall_result_mapping 5 0 ⟨5⟩).1 (by decide),
    (pty_syscall_result_mapping (-1) 9 ⟨5⟩).2.1 (by decide),
    (pty_syscall_result_mapping (-1) 13 ⟨5⟩).2.2.2.1 (by decide),
    (pty_syscall_result_mapping (-1) 1 ⟨5⟩).2.2.2.2.2 (by decide)⟩

/-- C8: a `PtyMaster` is obtainable through the API exactly when it wraps a
non-negative descriptor, and every obtainable master comes from a
successful `posix_openpt` returning precisely the wrapped descriptor —
`grantpt`, `unlockpt`, `ptsname` and `ptsname_r` take a `PtyMaster` by
type, so none of them can run before a successful open produced one. -/
theorem pty_master_only_from_openpt (m : PtyMaster) :
    (ObtainablePtyMaster m ↔ 0 ≤ m.fd) ∧
    (ObtainablePtyMaster m →
      ∃ res errno, 0 ≤ res ∧ posix_openpt res errno = .ok m ∧ m.fd = res) := by
  have hfwd : ObtainablePtyMaster m →
      ∃ res errno, 0 ≤ res ∧ posix_openpt res errno = .ok m ∧ m.fd = res := by
    intro h
    cases h with
    | openpt res errno m hok =>
      by_cases hneg : res < 0
      · simp [posix_openpt, hneg] at hok
      · refine ⟨res, errno, by omega, hok, ?_⟩
        simp [posix_openpt, hneg] at hok
        subst hok
        rfl
  refine ⟨⟨?_, ?_⟩, hfwd⟩
  · intro h
    obtain ⟨res, errno, hres, _, hfd⟩ := hfwd h
    omega
  · intro h0
    refine ObtainablePtyMaster.openpt m.fd 0 m ?_
    rw [posix_openpt, if_neg (by omega)]

/-- Witness for C8: the master wrapping descriptor 5 is obtainable, and it
traces back to a successful `posix_openpt`. -/
theorem pty_master_only_from_openpt_witness :
    ObtainablePtyMaster ⟨5⟩ ∧
    ∃ res errno, 0 ≤ res ∧ posix_openpt res errno = .ok ⟨5⟩ ∧
      (⟨5⟩ : PtyMaster).fd = res := by
  have hob : ObtainablePtyMaster ⟨5⟩ :=
    (pty_master_only_from_openpt ⟨5⟩).1.mpr (by decide)
  exact ⟨hob, (pty_master_only_from_openpt ⟨5⟩).2 hob⟩

/-- C10 counterexample: a 63-byte slave name needs exactly 64 bytes with
its terminator — the boundary case the claim says must fail — yet the call
succeeds with the full (untruncated) name, because 64 bytes including the
terminator still fit the 64-byte buffer. -/
theorem ptsname_r_63_byte_name_succeeds :
    ptsname_r (some (List.replicate 63 97)) 5 ⟨3⟩ =
      some (.ok (List.replicate 63 97)) := by
  rfl

/-- C10 (amended): `ptsname_r` drives a fixed 64-byte zero-initialised
buffer; a name of 64 bytes or more (i.e. needing strictly more than the
64-byte buffer once its terminator is counted) fails with the errno
`SystemError` rather than returning a truncated name, while a name of up
to 63 bytes (64 with the terminator) succeeds; whenever the underlying
call reports success the buffer contains a NUL, so the terminator search
never panics, and a returned name never contains a NUL byte. -/
theorem ptsname_r_buffer_safety :
    (∀ name buf : List Nat, libcPtsnameR (some name) = some buf → buf.length = 64) ∧
    (∀ (name : List Nat) (errno : Nat) (fd : PtyMaster), 64 ≤ name.length →
      ptsname_r (some name) errno fd = some (.error (.Sys errno))) ∧
    (∀ (kn : Option (List Nat)) (errno : Nat) (fd : PtyMaster),
      ptsname_r kn errno fd ≠ none) ∧
    (∀ (kn : Option (List Nat)) (errno : Nat) (fd : PtyMaster) (s : List Nat),
      ptsname_r kn errno fd = some (.ok s) → ∀ x ∈ s, x ≠ 0) := by
  refine ⟨?_, ?_, ?_, ?_⟩
  · intro name buf h
    simp only [libcPtsnameR] at h
    by_cases hlen : name.length + 1 ≤ 64
    · rw [if_pos hlen] at h
      injection h with h
      subst h
      simp only [List.length_append, List.length_replicate]
      omega
    · rw [if_neg hlen] at h
      cases h
  · intro name errno fd h64
    simp only [ptsname_r, libcPtsnameR]
    rw [if_neg (by omega)]
  · intro kn errno fd
    cases kn with
    | none => simp [ptsname_r, libcPtsnameR]
    | some name =>
      by_cases hlen : name.length + 1 ≤ 64
      · cases hf : (name ++ List.replicate (64 - name.length) 0).findIdx?
            (fun b => b == 0) with
        | none =>
          exfalso
          rw [List.findIdx?_eq_none_iff] at hf
          have h0 : (0 : Nat) ∈ name ++ List.replicate (64 - name.length) 0 := by
            apply List.mem_append_right
            rw [List.mem_replicate]
            exact ⟨by omega, rfl⟩
          have := hf 0 h0
          simp at this
        | some i =>
          rw [ptsname_r_found name errno fd i hlen hf]
          by_cases hv : validUtf8 ((name ++ List.replicate (64 - name.length) 0).take i) <;>
            simp [hv]
      · simp [ptsname_r, libcPtsnameR, hlen]
  · intro kn errno fd s h x hx
    cases kn with
    | none => simp [ptsname_r, libcPtsnameR] at h
    | some name =>
      by_cases hlen : name.length + 1 ≤ 64
      · cases hf : (name ++ List.replicate (64 - name.length) 0).findIdx?
            (fun b => b == 0) with
        | none =>
          rw [List.findIdx?_eq_none_iff] at hf
          have h0 : (0 : Nat) ∈ name ++ List.replicate (64 - name.length) 0 := by
            apply List.mem_append_right
            rw [List.mem_replicate]
            exact ⟨by omega, rfl⟩
          have := hf 0 h0
          simp at this
        | some i =>
          rw [ptsname_r_found name errno fd i hlen hf] at h
          by_cases hv : validUtf8 ((name ++ List.replicate (64 - name.length) 0).take i)
          · rw [if_pos hv] at h
            injection h with h
            injection h with h
            subst h
            have := take_findIdx?_not (fun b => b == 0)
              (name ++ List.replicate (64 - name.length) 0) i hf x hx
            simpa using this
          · rw [if_neg hv] at h
            simp at h
      · simp [ptsname_r, libcPtsnameR, hlen] at h

/-- Witness for the amended C10: a 64-byte name fails with the errno
error, a missing mapping never panics, and a returned name has no NULs. -/
theorem ptsname_r_buffer_safety_witness :
    ptsname_r (some (List.replicate 64 97)) 9 ⟨2⟩ = some (.error (.Sys 9)) ∧
    ptsname_r none 9 ⟨2⟩ ≠ none ∧
    ∀ x ∈ [97], x ≠ (0 : Nat) :=
  ⟨ptsname_r_buffer_safety.2.1 (List.replicate 64 97) 9 ⟨2⟩ (by simp),
    ptsname_r_buffer_safety.2.2.1 none 9 ⟨2⟩,
    ptsname_r_buffer_safety.2.2.2 (some [97]) 0 ⟨2⟩ [97] rfl⟩
